import Mathlib

/-!
Verification development for the RAG-InvestmentAnalyzer backend.

The definitions below are a shallow embedding of the TypeScript source:

* `backend/src/services/lancedb.service.ts` — `addChunks`,
  `searchSimilarChunks`, `deleteChunksByDocument`, operating on the
  LanceDB table.  The table is modelled as `Option (List Row)`
  (`none` = table not yet created, mirroring `getTable()` returning
  null before the first document upload).  The LanceDB engine itself
  is an external library; its documented operations are modelled as:
  `table.add` appends rows, `table.delete(pred)` removes the rows
  matching the predicate, and `vectorSearch(q).limit(n).where(f)`
  returns the rows satisfying the conjunction of the supplied filter
  clauses, ordered by ascending distance to `q` (best match first,
  stable), truncated to `n`.  Scores are the reported `_distance`
  (squared L2 over exact rationals stands in for floating point).
* `backend/src/utils/chunking.ts` — `chunkText` (token-window chunker,
  modelled with explicit fuel so that its termination is a provable
  statement) and `chunkTextBySentences` (sentence-accumulating
  chunker), together with a faithful model of the sentence-splitting
  regular expression `[^.!?]+[.!?]+` (global matching).  The tiktoken
  token counter is external, so the chunkers are parametric in a
  token-counting function `tok : String → Nat`.
* `backend/src/routes/query.routes.ts` — the POST handler's blank-query
  guard.  `query.service.ts` is not part of the sources, so the handler
  is parametric in the `processQuery` continuation.
* `backend/src/config/openai.ts` — the configuration constants.
-/

/-! ## Configuration constants (`backend/src/config/openai.ts`) -/

/-- `CHUNK_SIZE = 800` (tokens). -/
def CHUNK_SIZE : Nat := 800

/-- `CHUNK_OVERLAP = 100` (tokens). -/
def CHUNK_OVERLAP : Nat := 100

/-- `TOP_K_CHUNKS = 5`. -/
def TOP_K_CHUNKS : Nat := 5

/-! ## String helpers

JavaScript `String.prototype.trim` removes leading and trailing
whitespace; `Array.prototype.join(' ')` intercalates a single space.
We define both directly over the character list so that every use is
computable by the kernel. -/

/-- Model of JavaScript `s.trim()`: drop leading and trailing whitespace. -/
def jsTrim (s : String) : String :=
  String.mk (((s.data.dropWhile Char.isWhitespace).reverse.dropWhile
    Char.isWhitespace).reverse)

/-- Model of JavaScript `arr.join(' ')`. -/
def joinSp : List String → String
  | [] => ""
  | [s] => s
  | s :: rest => s ++ " " ++ joinSp rest

/-- Model of JavaScript `arr.slice(-3)`: the last (up to) three elements. -/
def takeLast3 (l : List α) : List α := l.drop (l.length - 3)

/-! ## LanceDB table model (`backend/src/config/lancedb.ts`,
`backend/src/services/lancedb.service.ts`)

A row is the flattened record built in `addChunks`.  The source field
`section` is spelled `sectionTag` here because `section` is a Lean
keyword. -/

/-- The nested `metadata` object of a chunk passed to `addChunks`
(and returned by `searchSimilarChunks`). -/
structure ChunkMetadata where
  documentId : String
  companyId : String
  companyTicker : String
  documentType : String
  chunkIndex : Nat
  pageNumber : Option Nat
  sectionTag : Option String
deriving Repr, DecidableEq

/-- One element of the `chunks` array passed to `addChunks`. -/
structure ChunkInput where
  id : String
  text : String
  embedding : List ℚ
  metadata : ChunkMetadata
deriving Repr, DecidableEq

/-- A flattened LanceDB row, as built by the `data` mapping in
`addChunks` (`pageNumber ?? null` and `section ?? null` become the
`Option` values directly). -/
structure Row where
  id : String
  text : String
  vector : List ℚ
  documentId : String
  companyId : String
  companyTicker : String
  documentType : String
  chunkIndex : Nat
  pageNumber : Option Nat
  sectionTag : Option String
deriving Repr, DecidableEq

/-- The table state: `none` until the table has been created
(`getTable()` yields null before the first upload), then the row list. -/
abbrev TableState := Option (List Row)

/-- The `chunks.map ((c) => ...)` flattening at the top of `addChunks`. -/
def toRow (c : ChunkInput) : Row where
  id := c.id
  text := c.text
  vector := c.embedding
  documentId := c.metadata.documentId
  companyId := c.metadata.companyId
  companyTicker := c.metadata.companyTicker
  documentType := c.metadata.documentType
  chunkIndex := c.metadata.chunkIndex
  pageNumber := c.metadata.pageNumber
  sectionTag := c.metadata.sectionTag

/-- `addChunks` (`lancedb.service.ts:7-53`): flatten the chunks, then
either create the table with that data (`createTable(data)`) or append
to the existing table (`table.add(data)`). -/
def addChunks (t : TableState) (chunks : List ChunkInput) : TableState :=
  let data := chunks.map toRow
  match t with
  | none => some data
  | some rows => some (rows ++ data)

/-- Number of entries in the index. -/
def entryCount : TableState → Nat
  | none => 0
  | some rows => rows.length

/-- Number of index entries carrying a given chunk id. -/
def countId (t : TableState) (i : String) : Nat :=
  match t with
  | none => 0
  | some rows => rows.countP (fun r => r.id == i)

/-- The `options` object of `searchSimilarChunks`. -/
structure SearchOptions where
  limit : Option Nat
  companyFilter : Option String
  documentTypes : Option (List String)
deriving Repr, DecidableEq

/-- The combined filter predicate built by the two `query.where(...)`
calls in `searchSimilarChunks` (`lancedb.service.ts:85-93`).  The
JavaScript truthiness guards are modelled exactly: an absent or empty
`companyFilter` string adds no clause, and an absent or empty
`documentTypes` array adds no clause. -/
def matchesFilters (o : SearchOptions) (r : Row) : Bool :=
  (match o.companyFilter with
   | none => true
   | some cf => if cf = "" then true else r.companyTicker == cf)
  &&
  (match o.documentTypes with
   | none => true
   | some dts => if dts.isEmpty then true else dts.contains r.documentType)

/-- Squared L2 distance between a query vector and a stored vector
(LanceDB's default metric; exact rationals stand in for floats). -/
def l2dist (q v : List ℚ) : ℚ :=
  ((List.zip q v).map (fun p => (p.1 - p.2) ^ 2)).sum

/-- Row ordering used by the vector search: ascending distance to the
query vector. -/
def distLe (q : List ℚ) (a b : Row) : Prop :=
  l2dist q a.vector ≤ l2dist q b.vector

instance instDecDistLe (q : List ℚ) : DecidableRel (distLe q) :=
  fun a b => inferInstanceAs (Decidable (l2dist q a.vector ≤ l2dist q b.vector))

instance instTotalDistLe (q : List ℚ) : IsTotal Row (distLe q) :=
  ⟨fun a b => le_total (l2dist q a.vector) (l2dist q b.vector)⟩

instance instTransDistLe (q : List ℚ) : IsTrans Row (distLe q) :=
  ⟨fun _ _ _ hab hbc => le_trans hab hbc⟩

/-- One element of the `formattedResults` array returned by
`searchSimilarChunks`; `score` is LanceDB's `_distance` (lower is a
better match). -/
structure Candidate where
  id : String
  text : String
  score : ℚ
  metadata : ChunkMetadata
deriving Repr, DecidableEq

/-- The `results.map ((result) => ...)` formatting step of
`searchSimilarChunks` (`lancedb.service.ts:99-112`). -/
def toCandidate (q : List ℚ) (r : Row) : Candidate where
  id := r.id
  text := r.text
  score := l2dist q r.vector
  metadata :=
    { documentId := r.documentId
      companyId := r.companyId
      companyTicker := r.companyTicker
      documentType := r.documentType
      chunkIndex := r.chunkIndex
      pageNumber := r.pageNumber
      sectionTag := r.sectionTag }

/-- `searchSimilarChunks` (`lancedb.service.ts:58-119`): return `[]`
when the table does not exist yet; otherwise run the vector search —
rows satisfying the conjoined `where` clauses, ordered by ascending
distance (stable), truncated to `options?.limit ?? 5` — and format the
rows as candidates. -/
def searchSimilarChunks (q : List ℚ) (o : SearchOptions) (t : TableState) :
    List Candidate :=
  match t with
  | none => []
  | some rows =>
    let filtered := rows.filter (matchesFilters o)
    let ranked := List.insertionSort (distLe q) filtered
    let limited := ranked.take (o.limit.getD 5)
    limited.map (toCandidate q)

/-- `deleteChunksByDocument` (`lancedb.service.ts:124-141`): a no-op
when the table does not exist; otherwise
`table.delete("documentId = '<id>'")`, removing exactly the rows whose
`documentId` matches. -/
def deleteChunksByDocument (documentId : String) (t : TableState) : TableState :=
  match t with
  | none => none
  | some rows => some (rows.filter (fun r => !(r.documentId == documentId)))

/-! ## Query route model (`backend/src/routes/query.routes.ts`) -/

/-- Modelled from the spec: the `AppError(message, statusCode)` class of
`error.middleware.ts`, which is not among the sources; it carries a
message and an HTTP status code. -/
structure AppError where
  message : String
  statusCode : Nat
deriving Repr, DecidableEq

/-- The POST `/api/query` handler (`query.routes.ts:11-32`).  The
request body's `queryText` is `Option String` (`none` = field absent).
The guard `!queryText || queryText.trim().length === 0` throws
`AppError('queryText is required', 400)`; otherwise `processQuery` is
invoked.  `query.service.ts` is not among the sources, so the handler
is parametric in the `process` continuation, which receives the same
four fields the source forwards. -/
def postQueryHandler (process : String → Option String → Option (List String) →
    Option Nat → α) (queryText : Option String) (companyFilter : Option String)
    (documentTypes : Option (List String)) (limit : Option Nat) :
    Except AppError α :=
  match queryText with
  | none => Except.error ⟨"queryText is required", 400⟩
  | some s =>
    if s = "" ∨ (jsTrim s).length = 0 then
      Except.error ⟨"queryText is required", 400⟩
    else
      Except.ok (process s companyFilter documentTypes limit)

/-! ## Sentence splitting (`backend/src/utils/chunking.ts:69`)

`text.match(/[^.!?]+[.!?]+/g) || [text]`: the regular expression
matches, left to right and without overlap, a maximal run of
non-terminal characters followed by a maximal run of terminal
punctuation (`.`, `!`, `?`).  Characters before the first match
(leading punctuation) and after the last match (an unterminated tail)
belong to no match.  `scanSentencesAux` is a single-pass state machine
over the character list: `buf` is the reversed characters of the match
being built, and `seenTerm` records whether the match has entered its
punctuation run. -/

/-- Is this character sentence-terminal punctuation (the class `[.!?]`)? -/
def isTerm (c : Char) : Bool := c == '.' || c == '!' || c == '?'

/-- State machine computing the successive matches of
`/[^.!?]+[.!?]+/g` on a character list. -/
def scanSentencesAux : List Char → List Char → Bool → List (List Char)
  | [], _, false => []
  | [], buf, true => [buf.reverse]
  | c :: cs, buf, false =>
    if isTerm c then
      if buf.isEmpty then
        scanSentencesAux cs [] false
      else
        scanSentencesAux cs (c :: buf) true
    else
      scanSentencesAux cs (c :: buf) false
  | c :: cs, buf, true =>
    if isTerm c then
      scanSentencesAux cs (c :: buf) true
    else
      buf.reverse :: scanSentencesAux cs [c] false

/-- The sentence list of `chunkTextBySentences`: the regex matches, or
`[text]` when the regex finds no match (`match` returned null). -/
def splitSentences (text : String) : List String :=
  let ms := (scanSentencesAux text.data [] false).map String.mk
  if ms.isEmpty then [text] else ms

/-! ## Sentence-based chunker (`backend/src/utils/chunking.ts:58-114`)

The chunker is parametric in the token counter `tok` standing for
`countTokens` (tiktoken, an external library). -/

/-- One element of the result of either chunker: `{text, tokenCount}`. -/
structure ChunkOut where
  text : String
  tokenCount : Nat
deriving Repr, DecidableEq

/-- The optional `options` record of both chunkers. -/
structure ChunkOptions where
  chunkSize : Option Nat
  overlap : Option Nat
deriving Repr, DecidableEq

/-- Turn a sentence buffer into the emitted chunk:
`chunkText = currentChunk.join(' ').trim()` pushed with
`countTokens(chunkText)`. -/
def mkChunk (tok : String → Nat) (buf : List String) : ChunkOut :=
  ⟨jsTrim (joinSp buf), tok (jsTrim (joinSp buf))⟩

/-- The sentence loop of `chunkTextBySentences` in recursive form.  The
arguments `cur`/`curTok` are `currentChunk`/`currentTokenCount`; the
emitted chunks are produced in order.  When pushing a sentence would
exceed `chunkSize` and the buffer is nonempty, the buffer is emitted
and restarted from the overlap carry (`currentChunk.slice(-3)` when its
joined token count is below `overlap`, empty otherwise); the sentence
is then appended to the new buffer.  After the loop the final nonempty
buffer is emitted. -/
def chunkLoop (cs ov : Nat) (tok : String → Nat) :
    List String → List String → Nat → List ChunkOut
  | [], cur, _ => if cur.isEmpty then [] else [mkChunk tok cur]
  | s :: rest, cur, curTok =>
    if curTok + tok s > cs ∧ cur ≠ [] then
      if tok (joinSp (takeLast3 cur)) < ov then
        mkChunk tok cur ::
          chunkLoop cs ov tok rest (takeLast3 cur ++ [s])
            (tok (joinSp (takeLast3 cur)) + tok s)
      else
        mkChunk tok cur :: chunkLoop cs ov tok rest [s] (tok s)
    else
      chunkLoop cs ov tok rest (cur ++ [s]) (curTok + tok s)

/-- `chunkTextBySentences` (`chunking.ts:58-114`): split into sentences,
then run the accumulation loop with the configured (or default) chunk
size and overlap. -/
def chunkTextBySentences (tok : String → Nat) (text : String)
    (opts : ChunkOptions) : List ChunkOut :=
  chunkLoop (opts.chunkSize.getD CHUNK_SIZE) (opts.overlap.getD CHUNK_OVERLAP)
    tok (splitSentences text) [] 0

/-- Instrumentation record for one buffer flush of the sentence loop:
the emitted buffer, the value of `currentTokenCount` at the flush, and
the sentence whose arrival triggered the flush. -/
structure Flush where
  buffer : List String
  curTok : Nat
  next : String
deriving Repr, DecidableEq

/-- Instrumented form of `chunkLoop`: the same recursion, returning the
flush events in order together with the final (unflushed) buffer. -/
def chunkTrace (cs ov : Nat) (tok : String → Nat) :
    List String → List String → Nat → List Flush × List String
  | [], cur, _ => ([], cur)
  | s :: rest, cur, curTok =>
    if curTok + tok s > cs ∧ cur ≠ [] then
      if tok (joinSp (takeLast3 cur)) < ov then
        let r := chunkTrace cs ov tok rest (takeLast3 cur ++ [s])
          (tok (joinSp (takeLast3 cur)) + tok s)
        (⟨cur, curTok, s⟩ :: r.1, r.2)
      else
        let r := chunkTrace cs ov tok rest [s] (tok s)
        (⟨cur, curTok, s⟩ :: r.1, r.2)
    else
      chunkTrace cs ov tok rest (cur ++ [s]) (curTok + tok s)

/-- The sentence buffers of the produced chunks, in order: the flushed
buffers followed by the final buffer when it is nonempty. -/
def buffersOf (p : List Flush × List String) : List (List String) :=
  p.1.map Flush.buffer ++ (if p.2.isEmpty then [] else [p.2])

/-- The overlap carry computed when a buffer `prev` is flushed:
`prev.slice(-3)` when its joined token count is strictly below the
configured overlap, otherwise nothing. -/
def carriedOf (ov : Nat) (tok : String → Nat) (prev : List String) :
    List String :=
  if tok (joinSp (takeLast3 prev)) < ov then takeLast3 prev else []

/-- Relation between a flush and the buffer that follows it: the next
buffer begins with the overlap carry of the flushed buffer followed by
the sentence that triggered the flush. -/
def FlushStep (ov : Nat) (tok : String → Nat) (f : Flush)
    (b : List String) : Prop :=
  ∃ rest, b = carriedOf ov tok f.buffer ++ f.next :: rest

/-! ## Token-window chunker (`backend/src/utils/chunking.ts:16-52`)

`chunkText` encodes the text to a token list (tiktoken, external —
modelled as the input `tokens : List Nat`), then slides a window:
`slice(startIdx, min(startIdx + chunkSize, length))` is emitted, the
start index advances by `chunkSize - overlap`, and the loop breaks when
the window reached the end.  Each emitted chunk is the decoded window
text (the decoding is external, so the model keeps the token slice).
The `while` loop is modelled with explicit fuel: `none` means the loop
did not finish within the given number of iterations. -/

/-- The `while (startIdx < tokens.length)` loop of `chunkText`, with
fuel. -/
def chunkTextLoop (cs ov : Nat) : Nat → List Nat → Nat → Option (List (List Nat))
  | 0, _, _ => none
  | fuel + 1, tokens, startIdx =>
    if startIdx < tokens.length then
      if min (startIdx + cs) tokens.length = tokens.length then
        some [(tokens.drop startIdx).take cs]
      else
        (chunkTextLoop cs ov fuel tokens (startIdx + (cs - ov))).map
          (fun rest => (tokens.drop startIdx).take cs :: rest)
    else
      some []

/-- `chunkText` on a token list, with the chunk size and overlap already
defaulted (`options?.chunkSize ?? CHUNK_SIZE`, `options?.overlap ??
CHUNK_OVERLAP`); the loop receives `tokens.length + 1` fuel. -/
def chunkText (cs ov : Nat) (tokens : List Nat) : Option (List (List Nat)) :=
  chunkTextLoop cs ov (tokens.length + 1) tokens 0

/-- The flush trace of `chunkTextBySentences` on a text: flush events in
order, plus the final unflushed buffer. -/
def chunkFlushTrace (tok : String → Nat) (text : String)
    (opts : ChunkOptions) : List Flush × List String :=
  chunkTrace (opts.chunkSize.getD CHUNK_SIZE) (opts.overlap.getD CHUNK_OVERLAP)
    tok (splitSentences text) [] 0

/-- The sentence buffers of the chunks `chunkTextBySentences` emits on a
text, in emission order. -/
def chunkBuffers (tok : String → Nat) (text : String)
    (opts : ChunkOptions) : List (List String) :=
  buffersOf (chunkFlushTrace tok text opts)

/-- Invariant carried through the sentence loop: the flushes chain
correctly (each buffer continues from its predecessor's overlap carry
and triggering sentence), the final buffer continues from the last
flush, and the first buffer extends the loop's starting buffer. -/
def TraceInv (ov : Nat) (tok : String → Nat) (cur : List String)
    (p : List Flush × List String) : Prop :=
  List.Chain' (fun f g => FlushStep ov tok f g.buffer) p.1 ∧
  (∀ f, p.1.getLast? = some f → FlushStep ov tok f p.2) ∧
  (∀ f, p.1.head? = some f → ∃ ext, f.buffer = cur ++ ext) ∧
  (p.1 = [] → ∃ ext, p.2 = cur ++ ext)

/-! ## Concrete rows used by witnesses and counterexamples -/

/-- A concrete chunk batch element (TSLA 10-K chunk). -/
def cChunk : ChunkInput :=
  ⟨"c1", "Revenue grew.", [1], ⟨"doc1", "co1", "TSLA", "FILING_10K", 0, none, none⟩⟩

/-- A concrete TSLA 10-K row. -/
def rTsla : Row := ⟨"c1", "t1", [1], "d1", "co1", "TSLA", "FILING_10K", 0, none, none⟩

/-- A concrete AAPL 10-Q row (different company and type). -/
def rAapl : Row := ⟨"c2", "t2", [2], "d2", "co2", "AAPL", "FILING_10Q", 0, none, none⟩

/-! ## Claim theorems: vector index -/

/-- C1: for every index state and every pair of supplied (nonempty)
filters, `searchSimilarChunks` returns only candidates whose metadata
has `companyTicker` equal to the company filter and `documentType` in
the document-type set; and with both filters absent the combined
predicate accepts every row (an absent filter imposes no restriction). -/
theorem searchSimilarChunks_filters_conj :
    (∀ (q : List ℚ) (o : SearchOptions) (t : TableState) (cf : String)
        (dts : List String),
      o.companyFilter = some cf → cf ≠ "" → o.documentTypes = some dts →
      dts ≠ [] →
      ∀ c ∈ searchSimilarChunks q o t,
        c.metadata.companyTicker = cf ∧ c.metadata.documentType ∈ dts) ∧
    (∀ (lim : Option Nat) (r : Row), matchesFilters ⟨lim, none, none⟩ r = true) := by
  constructor
  · intro q o t cf dts hcf hcfne hdts hdtsne c hc
    match t with
    | none => simp [searchSimilarChunks] at hc
    | some rows =>
      simp only [searchSimilarChunks] at hc
      obtain ⟨r, hr, rfl⟩ := List.mem_map.mp hc
      have hr2 : r ∈ List.insertionSort (distLe q) (rows.filter (matchesFilters o)) :=
        List.mem_of_mem_take hr
      have hr3 : r ∈ rows.filter (matchesFilters o) :=
        ((List.perm_insertionSort (distLe q) _).mem_iff).mp hr2
      have hmf : matchesFilters o r = true := (List.mem_filter.mp hr3).2
      simp [matchesFilters, hcf, hdts, hcfne, hdtsne] at hmf
      exact ⟨by simpa [toCandidate] using hmf.1,
        by simpa [toCandidate] using hmf.2⟩
  · intro lim r
    rfl

/-- C1 witness: on a mixed-company index with `companyFilter = "TSLA"`
and `documentTypes = ["FILING_10K"]`, the returned candidate's metadata
satisfies both predicates. -/
theorem searchSimilarChunks_filters_conj_witness :
    (toCandidate [0] rTsla).metadata.companyTicker = "TSLA" ∧
    (toCandidate [0] rTsla).metadata.documentType ∈ ["FILING_10K"] := by
  have hmem : toCandidate [0] rTsla ∈
      searchSimilarChunks [0] ⟨some 5, some "TSLA", some ["FILING_10K"]⟩
        (some [rTsla, rAapl]) := by
    have h : searchSimilarChunks [0] ⟨some 5, some "TSLA", some ["FILING_10K"]⟩
        (some [rTsla, rAapl]) = [toCandidate [0] rTsla] := rfl
    rw [h]
    exact List.mem_singleton_self _
  exact searchSimilarChunks_filters_conj.1 [0]
    ⟨some 5, some "TSLA", some ["FILING_10K"]⟩ (some [rTsla, rAapl])
    "TSLA" ["FILING_10K"] rfl (by decide) rfl (by decide) _ hmem

/-- C2 counterexample: `addChunks` is not idempotent by chunk id — after
adding the same one-element batch twice (the first call creating the
table), the index holds two entries with that chunk id, not one. -/
theorem addChunks_not_idempotent_cex :
    countId (addChunks (addChunks none [cChunk]) [cChunk]) "c1" = 2 ∧
    ¬ countId (addChunks (addChunks none [cChunk]) [cChunk]) "c1" = 1 := by
  constructor <;> decide

/-- C2 (amended): `addChunks` appends; the entry count grows by the
batch size on every call, and the number of entries carrying a given
chunk id grows by its number of occurrences in the batch, so repeated
ingestion of the same batch accumulates duplicates. -/
theorem addChunks_append_count (t : TableState) (chunks : List ChunkInput)
    (i : String) :
    entryCount (addChunks t chunks) = entryCount t + chunks.length ∧
    countId (addChunks t chunks) i =
      countId t i + chunks.countP (fun c => c.id == i) := by
  cases t <;>
    simp [addChunks, entryCount, countId, List.countP_append, List.countP_map,
      Function.comp_def, toRow]

/-- C3 counterexample: the supplied `limit` is not bounded to a sane
positive range — with `limit = 0` the search returns nothing from an
index whose single entry matches, while any positive bound (here 1)
would return that entry. -/
theorem searchSimilarChunks_limit_unbounded_cex :
    searchSimilarChunks [0] ⟨some 0, none, none⟩ (some [rTsla]) = [] ∧
    searchSimilarChunks [0] ⟨some 1, none, none⟩ (some [rTsla]) =
      [toCandidate [0] rTsla] :=
  ⟨rfl, rfl⟩

/-- C3 (amended): `searchSimilarChunks` returns at most
`options.limit ?? 5` candidates, ordered by ascending score (`_distance`,
best match first); an omitted limit behaves exactly as the default 5;
the supplied limit is passed through without being clamped to a
positive range. -/
theorem searchSimilarChunks_limit_default_sorted (q : List ℚ)
    (o : SearchOptions) (t : TableState) :
    (searchSimilarChunks q o t).length ≤ o.limit.getD 5 ∧
    List.Sorted (fun a b : Candidate => a.score ≤ b.score)
      (searchSimilarChunks q o t) ∧
    searchSimilarChunks q ⟨none, o.companyFilter, o.documentTypes⟩ t =
      searchSimilarChunks q ⟨some 5, o.companyFilter, o.documentTypes⟩ t := by
  refine ⟨?_, ?_, ?_⟩
  · match t with
    | none => simp [searchSimilarChunks]
    | some rows =>
      simp only [searchSimilarChunks, List.length_map, List.length_take]
      exact min_le_left _ _
  · match t with
    | none => exact List.sorted_nil
    | some rows =>
      simp only [searchSimilarChunks, List.Sorted]
      rw [List.pairwise_map]
      have hs : List.Pairwise (distLe q)
          (List.insertionSort (distLe q) (rows.filter (matchesFilters o))) :=
        List.sorted_insertionSort (distLe q) _
      exact (hs.sublist (List.take_sublist _ _)).imp (fun h => by
        simpa [toCandidate, distLe] using h)
  · cases t <;> rfl

/-- C4: when the table has not been created, or no entry satisfies the
filters, `searchSimilarChunks` returns the empty list (a value, not an
error). -/
theorem searchSimilarChunks_empty_ok (q : List ℚ) (o : SearchOptions) :
    searchSimilarChunks q o none = [] ∧
    ∀ rows : List Row, (∀ r ∈ rows, matchesFilters o r = false) →
      searchSimilarChunks q o (some rows) = [] := by
  refine ⟨rfl, fun rows h => ?_⟩
  have hf : rows.filter (matchesFilters o) = [] :=
    List.filter_eq_nil_iff.mpr (by intro a ha; simp [h a ha])
  simp [searchSimilarChunks, hf]

/-- C4 witness: a populated index with no entry matching the company
filter yields the empty result. -/
theorem searchSimilarChunks_empty_ok_witness :
    searchSimilarChunks [0] ⟨none, some "MSFT", none⟩ (some [rTsla, rAapl]) = [] :=
  (searchSimilarChunks_empty_ok [0] ⟨none, some "MSFT", none⟩).2
    [rTsla, rAapl] (by decide)

/-- C8: deleting by document id is a no-op on a not-yet-created table;
on an existing table it removes exactly the rows whose `documentId`
matches, keeping every other row (in order, unchanged). -/
theorem deleteChunksByDocument_frame (docId : String) (rows : List Row) :
    deleteChunksByDocument docId none = none ∧
    ∃ rows', deleteChunksByDocument docId (some rows) = some rows' ∧
      (∀ r ∈ rows', r.documentId ≠ docId) ∧
      (∀ r ∈ rows, r.documentId ≠ docId → r ∈ rows') ∧
      rows'.Sublist rows := by
  refine ⟨rfl, rows.filter (fun r => !(r.documentId == docId)), rfl, ?_, ?_,
    List.filter_sublist rows⟩
  · intro r hr
    have := (List.mem_filter.mp hr).2
    simpa using this
  · intro r hr hne
    exact List.mem_filter.mpr ⟨hr, by simpa using hne⟩

/-- C8 witness: deleting document `d1` from a two-document index keeps
the `d2` row and that row's document id indeed differs from `d1`. -/
theorem deleteChunksByDocument_frame_witness :
    deleteChunksByDocument "d1" none = none ∧ rAapl.documentId ≠ "d1" := by
  obtain ⟨h1, rows', _heq, hno, hkeep, _hsub⟩ :=
    deleteChunksByDocument_frame "d1" [rTsla, rAapl]
  exact ⟨h1, hno rAapl (hkeep rAapl (by decide) (by decide))⟩

/-! ## Claim theorems: token-window chunker termination -/

/-- Fuel bound for the `while` loop of `chunkText`: when the overlap is
strictly below the chunk size, `tokens.length - startIdx` remaining
iterations (plus one) always suffice. -/
theorem chunkTextLoop_isSome (cs ov : Nat) (hov : ov < cs) :
    ∀ (fuel startIdx : Nat) (tokens : List Nat),
      tokens.length - startIdx < fuel →
      (chunkTextLoop cs ov fuel tokens startIdx).isSome = true := by
  intro fuel
  induction fuel with
  | zero => intro s t h; omega
  | succ n ih =>
    intro s t h
    simp only [chunkTextLoop]
    split
    · split
      · simp
      · rename_i hlt hmin
        have hrec : t.length - (s + (cs - ov)) < n := by omega
        have := ih (s + (cs - ov)) t hrec
        cases hx : chunkTextLoop cs ov n t (s + (cs - ov)) <;>
          simp [hx] at this ⊢
    · simp

/-- C9: `chunkText` terminates for every input under the precondition
`overlap < chunkSize` (the loop finishes within `tokens.length + 1`
iterations); the per-iteration advance `chunkSize - overlap` is
positive exactly under that precondition, and the defaults
`CHUNK_OVERLAP = 100 < CHUNK_SIZE = 800` satisfy it. -/
theorem chunkText_terminates (tokens : List Nat) (cs ov : Nat) (hov : ov < cs) :
    (chunkText cs ov tokens).isSome = true ∧
    (∀ cs' ov' : Nat, 0 < cs' - ov' ↔ ov' < cs') ∧
    CHUNK_OVERLAP < CHUNK_SIZE := by
  refine ⟨chunkTextLoop_isSome cs ov hov (tokens.length + 1) 0 tokens (by omega),
    fun cs' ov' => by omega, by decide⟩

/-- C9 witness: with chunk size 2 and overlap 1 the loop finishes on a
three-token input. -/
theorem chunkText_terminates_witness :
    (chunkText 2 1 [10, 20, 30]).isSome = true :=
  (chunkText_terminates [10, 20, 30] 2 1 (by decide)).1

/-! ## Claim theorems: query route -/

/-- C10: a request whose `queryText` is absent, empty, or
whitespace-only is rejected with the 400 `queryText is required` error,
for every `processQuery` continuation — so no downstream work is
performed for a blank query. -/
theorem postQuery_blank_rejected {α : Type} (process : String → Option String →
    Option (List String) → Option Nat → α) (companyFilter : Option String)
    (documentTypes : Option (List String)) (limit : Option Nat)
    (queryText : Option String)
    (hblank : queryText = none ∨ ∃ s, queryText = some s ∧ jsTrim s = "") :
    postQueryHandler process queryText companyFilter documentTypes limit =
      Except.error ⟨"queryText is required", 400⟩ := by
  rcases hblank with h | ⟨s, rfl, hs⟩
  · subst h; rfl
  · simp only [postQueryHandler]
    rw [if_pos (Or.inr (by rw [hs]; rfl))]

/-- C10 witness: a whitespace-only `queryText` is rejected with the 400
error (continuation never invoked). -/
theorem postQuery_blank_rejected_witness :
    postQueryHandler (fun _ _ _ _ => (0 : Nat)) (some "   ") none none none =
      Except.error ⟨"queryText is required", 400⟩ :=
  postQuery_blank_rejected (fun _ _ _ _ => (0 : Nat)) none none none
    (some "   ") (Or.inr ⟨"   ", rfl, by decide⟩)

/-! ## Sentence-chunker lemmas -/

/-- `buffersOf` distributes over consing a flush onto a trace. -/
theorem buffersOf_cons (f : Flush) (p : List Flush × List String) :
    buffersOf (f :: p.1, p.2) = f.buffer :: buffersOf p := by
  simp [buffersOf]

/-- The chunk list is the image of the traced buffers under `mkChunk`:
the instrumented recursion projects onto the source loop. -/
theorem chunkLoop_eq_buffers (cs ov : Nat) (tok : String → Nat) :
    ∀ (ss cur : List String) (curTok : Nat),
      chunkLoop cs ov tok ss cur curTok =
        (buffersOf (chunkTrace cs ov tok ss cur curTok)).map (mkChunk tok) := by
  intro ss
  induction ss with
  | nil =>
    intro cur curTok
    by_cases h : cur.isEmpty <;> simp [chunkLoop, chunkTrace, buffersOf, h]
  | cons s rest ih =>
    intro cur curTok
    simp only [chunkLoop, chunkTrace]
    split
    · split
      · rw [buffersOf_cons]
        simp [ih]
      · rw [buffersOf_cons]
        simp [ih]
    · exact ih _ _

/-- Every sentence fed to the loop ends up, in order, in the traced
buffers (the starting buffer's contents included). -/
theorem chunkTrace_coverage (cs ov : Nat) (tok : String → Nat) :
    ∀ (ss cur : List String) (curTok : Nat),
      (cur ++ ss).Sublist
        ((buffersOf (chunkTrace cs ov tok ss cur curTok)).flatten) := by
  intro ss
  induction ss with
  | nil =>
    intro cur curTok
    by_cases h : cur.isEmpty <;> simp_all [chunkTrace, buffersOf]
  | cons s rest ih =>
    intro cur curTok
    simp only [chunkTrace]
    split
    · split
      · rw [buffersOf_cons, List.flatten_cons]
        refine List.Sublist.append_left ?_ cur
        refine List.Sublist.trans ?_ (ih (takeLast3 cur ++ [s]) _)
        rw [List.append_assoc, List.singleton_append]
        exact List.sublist_append_right _ _
      · rw [buffersOf_cons, List.flatten_cons]
        refine List.Sublist.append_left ?_ cur
        simpa using ih [s] (tok s)
    · have := ih (cur ++ [s]) (curTok + tok s)
      simpa using this

/-- Every traced flush was triggered exactly when pushing the next
sentence would exceed the chunk size, and never on an empty buffer. -/
theorem chunkTrace_flushes (cs ov : Nat) (tok : String → Nat) :
    ∀ (ss cur : List String) (curTok : Nat),
      ∀ f ∈ (chunkTrace cs ov tok ss cur curTok).1,
        f.curTok + tok f.next > cs ∧ f.buffer ≠ [] := by
  intro ss
  induction ss with
  | nil => intro cur curTok f hf; simp [chunkTrace] at hf
  | cons s rest ih =>
    intro cur curTok f hf
    simp only [chunkTrace] at hf
    split at hf
    · rename_i hcond
      split at hf
      · rcases List.mem_cons.mp hf with rfl | hf'
        · exact hcond
        · exact ih _ _ f hf'
      · rcases List.mem_cons.mp hf with rfl | hf'
        · exact hcond
        · exact ih _ _ f hf'
    · exact ih _ _ f hf

/-- Weakening the base of the trace invariant: whatever extends
`cur ++ [s]` extends `cur`. -/
theorem TraceInv.extend (ov : Nat) (tok : String → Nat) (cur : List String)
    (s : String) (p : List Flush × List String)
    (h : TraceInv ov tok (cur ++ [s]) p) : TraceInv ov tok cur p := by
  obtain ⟨hchain, hlast, hhead, hnil⟩ := h
  refine ⟨hchain, hlast, ?_, ?_⟩
  · intro f hf
    obtain ⟨ext, hext⟩ := hhead f hf
    exact ⟨[s] ++ ext, by rw [hext, List.append_assoc]⟩
  · intro h0
    obtain ⟨ext, hext⟩ := hnil h0
    exact ⟨[s] ++ ext, by rw [hext, List.append_assoc]⟩

/-- Flushing preserves the trace invariant: if the remaining trace's
buffers extend the overlap carry of `cur` followed by the triggering
sentence `s`, then prepending the flush of `cur` yields a correctly
chained trace. -/
theorem TraceInv.flush (ov : Nat) (tok : String → Nat) (cur : List String)
    (curTok : Nat) (s : String) (p : List Flush × List String)
    (h : TraceInv ov tok (carriedOf ov tok cur ++ [s]) p) :
    TraceInv ov tok cur (⟨cur, curTok, s⟩ :: p.1, p.2) := by
  obtain ⟨hchain, hlast, hhead, hnil⟩ := h
  refine ⟨?_, ?_, ?_, ?_⟩
  · rw [List.chain'_cons']
    refine ⟨?_, hchain⟩
    intro g hg
    rw [Option.mem_def] at hg
    obtain ⟨ext, hext⟩ := hhead g hg
    refine ⟨ext, ?_⟩
    show g.buffer = carriedOf ov tok cur ++ s :: ext
    rw [hext, List.append_assoc, List.singleton_append]
  · intro f hf
    cases hp1 : p.1 with
    | nil =>
      rw [hp1] at hf
      simp only [List.getLast?_singleton, Option.some.injEq] at hf
      subst hf
      obtain ⟨ext, hext⟩ := hnil hp1
      refine ⟨ext, ?_⟩
      show p.2 = carriedOf ov tok cur ++ s :: ext
      rw [hext, List.append_assoc, List.singleton_append]
    | cons a l =>
      refine hlast f ?_
      rw [hp1]
      rw [hp1] at hf
      rwa [List.getLast?_cons_cons] at hf
  · intro f hf
    simp only [List.head?_cons, Option.some.injEq] at hf
    subst hf
    exact ⟨[], by simp⟩
  · intro h0
    simp at h0

/-- The sentence loop maintains the chaining invariant from any start
state. -/
theorem chunkTrace_chain (cs ov : Nat) (tok : String → Nat) :
    ∀ (ss cur : List String) (curTok : Nat),
      TraceInv ov tok cur (chunkTrace cs ov tok ss cur curTok) := by
  intro ss
  induction ss with
  | nil =>
    intro cur curTok
    refine ⟨List.chain'_nil, ?_, ?_, ?_⟩
    · intro f hf; simp [chunkTrace] at hf
    · intro f hf; simp [chunkTrace] at hf
    · intro _; exact ⟨[], by simp [chunkTrace]⟩
  | cons s rest ih =>
    intro cur curTok
    simp only [chunkTrace]
    split
    · split
      · rename_i hc hov2
        exact TraceInv.flush ov tok cur curTok s _
          (by rw [carriedOf, if_pos hov2]; exact ih (takeLast3 cur ++ [s]) _)
      · rename_i hc hov2
        exact TraceInv.flush ov tok cur curTok s _
          (by rw [carriedOf, if_neg hov2, List.nil_append]; exact ih [s] _)
    · exact TraceInv.extend ov tok cur s _ (ih (cur ++ [s]) _)

/-- Every match emitted by the sentence scanner ends with a terminal
punctuation character (the regex suffix `[.!?]+`). -/
theorem scanSentencesAux_ends_term :
    ∀ (l buf : List Char) (flag : Bool),
      (flag = true → ∃ c rest, buf = c :: rest ∧ isTerm c = true) →
      ∀ m ∈ scanSentencesAux l buf flag,
        ∃ c, m.getLast? = some c ∧ isTerm c = true := by
  intro l
  induction l with
  | nil =>
    intro buf flag hinv m hm
    cases flag with
    | false => simp [scanSentencesAux] at hm
    | true =>
      simp only [scanSentencesAux, List.mem_singleton] at hm
      obtain ⟨c, rest, hbuf, hc⟩ := hinv rfl
      subst hm hbuf
      exact ⟨c, by simp, hc⟩
  | cons a l ih =>
    intro buf flag hinv m hm
    cases flag with
    | false =>
      simp only [scanSentencesAux] at hm
      split at hm
      · split at hm
        · exact ih [] false (by simp) m hm
        · rename_i hterm _
          exact ih (a :: buf) true (fun _ => ⟨a, buf, rfl, hterm⟩) m hm
      · exact ih (a :: buf) false (by simp) m hm
    | true =>
      simp only [scanSentencesAux] at hm
      split at hm
      · rename_i hterm
        exact ih (a :: buf) true (fun _ => ⟨a, buf, rfl, hterm⟩) m hm
      · rcases List.mem_cons.mp hm with rfl | hm'
        · obtain ⟨c, rest, hbuf, hc⟩ := hinv rfl
          exact ⟨c, by simp [hbuf], hc⟩
        · exact ih [a] false (by simp) m hm'

/-- On input without terminal punctuation the scanner finds no match. -/
theorem scanSentencesAux_no_term :
    ∀ (l buf : List Char), (∀ c ∈ l, isTerm c = false) →
      scanSentencesAux l buf false = [] := by
  intro l
  induction l with
  | nil => intro buf _; rfl
  | cons a l ih =>
    intro buf h
    simp only [scanSentencesAux]
    rw [if_neg (by simp [h a (by simp)])]
    exact ih (a :: buf) (fun c hc => h c (by simp [hc]))

/-- Degenerate input: without terminal punctuation the whole text is the
single sentence (`match` returned null, falling back to `[text]`). -/
theorem splitSentences_no_term (text : String)
    (h : ∀ c ∈ text.data, isTerm c = false) : splitSentences text = [text] := by
  simp [splitSentences, scanSentencesAux_no_term text.data [] h]

/-! ## Claim theorems: sentence chunker -/

/-- C5: `chunkTextBySentences` splits the text into sentences on
terminal punctuation (every non-fallback sentence ends with `.`, `!` or
`?`), accumulates sentences into a growing buffer, and emits the buffer
as one chunk exactly when adding the next sentence would push the
running token count past the chunk size (never on an empty buffer); the
emitted chunks are the traced buffers in emission (document) order. -/
theorem chunkTextBySentences_accumulation (tok : String → Nat) (text : String)
    (opts : ChunkOptions) :
    chunkTextBySentences tok text opts =
      (chunkBuffers tok text opts).map (mkChunk tok) ∧
    (∀ f ∈ (chunkFlushTrace tok text opts).1,
      f.curTok + tok f.next > opts.chunkSize.getD CHUNK_SIZE ∧ f.buffer ≠ []) ∧
    (∀ m ∈ splitSentences text,
      (∃ c, m.data.getLast? = some c ∧ isTerm c = true) ∨
        splitSentences text = [text]) := by
  refine ⟨chunkLoop_eq_buffers _ _ tok (splitSentences text) [] 0, ?_, ?_⟩
  · intro f hf
    exact chunkTrace_flushes _ _ tok (splitSentences text) [] 0 f hf
  · intro m hm
    by_cases hsc : scanSentencesAux text.data [] false = []
    · right; simp [splitSentences, hsc]
    · left
      rw [splitSentences] at hm
      rw [if_neg (by simpa using hsc)] at hm
      obtain ⟨l, hl, rfl⟩ := List.mem_map.mp hm
      obtain ⟨c, hc, hterm⟩ :=
        scanSentencesAux_ends_term text.data [] false (by simp) l hl
      exact ⟨c, hc, hterm⟩

/-- C5 witness: on `"Aa. Bb. Cc."` with chunk size 4 and token counter
`String.length`, the first flush was triggered because the buffered 3
tokens plus the 4 of the next sentence exceed 4, on a nonempty buffer. -/
theorem chunkTextBySentences_accumulation_witness :
    3 + String.length " Bb." > 4 ∧ (["Aa."] : List String) ≠ [] :=
  (chunkTextBySentences_accumulation String.length "Aa. Bb. Cc."
    ⟨some 4, some 0⟩).2.1 ⟨["Aa."], 3, " Bb."⟩ (by decide)

/-- C6: the sentence list is a sublist of the concatenated chunk
buffers (no sentence is dropped, order preserved, sentences whole);
every sentence appears in some buffer — in particular a sentence longer
than the chunk size; a single-sentence split is emitted as one
(possibly oversized) chunk; and input without terminal punctuation is
treated as one sentence and yields one chunk holding the entire
(trimmed) text. -/
theorem chunkTextBySentences_coverage (tok : String → Nat) (text : String)
    (opts : ChunkOptions) :
    (splitSentences text).Sublist (chunkBuffers tok text opts).flatten ∧
    chunkTextBySentences tok text opts =
      (chunkBuffers tok text opts).map (mkChunk tok) ∧
    (∀ s ∈ splitSentences text, ∃ b ∈ chunkBuffers tok text opts, s ∈ b) ∧
    (∀ s, splitSentences text = [s] →
      chunkTextBySentences tok text opts = [mkChunk tok [s]]) ∧
    ((∀ c ∈ text.data, isTerm c = false) →
      chunkTextBySentences tok text opts =
        [⟨jsTrim text, tok (jsTrim text)⟩]) := by
  have hcov : (splitSentences text).Sublist
      (chunkBuffers tok text opts).flatten := by
    simpa using chunkTrace_coverage (opts.chunkSize.getD CHUNK_SIZE)
      (opts.overlap.getD CHUNK_OVERLAP) tok (splitSentences text) [] 0
  have hone : ∀ s, splitSentences text = [s] →
      chunkTextBySentences tok text opts = [mkChunk tok [s]] := by
    intro s hsplit
    rw [chunkTextBySentences, hsplit]
    simp [chunkLoop]
  refine ⟨hcov, chunkLoop_eq_buffers _ _ tok (splitSentences text) [] 0,
    ?_, hone, ?_⟩
  · intro s hs
    exact List.mem_flatten.mp (hcov.subset hs)
  · intro h
    rw [hone text (splitSentences_no_term text h)]
    simp [mkChunk, joinSp]

/-- C6 witness: `"hello world"` has no terminal punctuation and comes
back as a single chunk holding the whole text. -/
theorem chunkTextBySentences_coverage_witness :
    chunkTextBySentences String.length "hello world" ⟨none, none⟩ =
      [⟨jsTrim "hello world", String.length (jsTrim "hello world")⟩] :=
  (chunkTextBySentences_coverage String.length "hello world"
    ⟨none, none⟩).2.2.2.2 (by decide)

/-- C7: consecutive chunk buffers chain through the overlap carry: each
buffer after the first starts with its predecessor's carry — the last
(up to) three sentences when their joined token count is strictly below
the configured overlap, nothing otherwise — followed by the triggering
sentence; hence the carried overlap's token count is below the
configured overlap whenever it is nonempty. -/
theorem chunkTextBySentences_overlap (tok : String → Nat) (text : String)
    (opts : ChunkOptions) :
    chunkTextBySentences tok text opts =
      (chunkBuffers tok text opts).map (mkChunk tok) ∧
    List.Chain'
      (fun f g => FlushStep (opts.overlap.getD CHUNK_OVERLAP) tok f g.buffer)
      (chunkFlushTrace tok text opts).1 ∧
    (∀ f, (chunkFlushTrace tok text opts).1.getLast? = some f →
      FlushStep (opts.overlap.getD CHUNK_OVERLAP) tok f
        (chunkFlushTrace tok text opts).2) ∧
    (∀ prev : List String,
      carriedOf (opts.overlap.getD CHUNK_OVERLAP) tok prev = [] ∨
        tok (joinSp (carriedOf (opts.overlap.getD CHUNK_OVERLAP) tok prev)) <
          opts.overlap.getD CHUNK_OVERLAP) := by
  obtain ⟨hchain, hlast, _, _⟩ := chunkTrace_chain
    (opts.chunkSize.getD CHUNK_SIZE) (opts.overlap.getD CHUNK_OVERLAP) tok
    (splitSentences text) [] 0
  refine ⟨chunkLoop_eq_buffers _ _ tok (splitSentences text) [] 0,
    hchain, hlast, ?_⟩
  intro prev
  rw [carriedOf]
  split
  · rename_i hlt
    exact Or.inr hlt
  · exact Or.inl rfl

/-- C7 witness: on `"Aa. Bb. Cc."` with overlap 0, the final buffer
continues from the last flush with an empty carry followed by the
triggering sentence. -/
theorem chunkTextBySentences_overlap_witness :
    FlushStep 0 String.length ⟨[" Bb."], 4, " Cc."⟩ [" Cc."] :=
  (chunkTextBySentences_overlap String.length "Aa. Bb. Cc."
    ⟨some 4, some 0⟩).2.2.1 ⟨[" Bb."], 4, " Cc."⟩ (by decide)
